import Mathlib

/-!
Shallow embedding of the `bptree` Go package (an in-memory B+ tree with
`Put`/`Get`/`Delete`/`Size`/`ForEach`/`Iterator`) and proofs about the
claims of its specification.

Modelling conventions:
* Go byte slices (`[]byte`) are `List Nat`; a nil slice and an empty slice
  compare equal under `bytes.Compare`, so both are modelled as `[]`.
* Go heap objects (`*node`) live in a `Heap := List GoNode`; a `*node`
  value is the index of the node in the heap.  Mutation of a node is an
  explicit `List.set` on the heap; allocation appends at the end.
* The `pointer` struct (a tagged `interface{}` holding either a `*node` or
  a `[]byte` value) is the inductive `PData`; a `*pointer` slot in a node's
  `pointers` array is `Option PData`, with `none` for a nil `*pointer`.
* Go panics (failed type assertion in `convertToNode`/`convertToValue`,
  nil-pointer dereference, explicit `panic`) are modelled by `Option`:
  a function that can panic returns `none` in exactly those situations.
  Unbounded `for` loops and recursion take a fuel argument and return
  `none` when the fuel runs out.
* Fixed-size Go arrays (`make([][]byte, n)`) are lists of that length;
  reads use `List.getD`, writes use `List.set`.
-/

namespace BPTree

/-- A Go `[]byte`: a (finite) sequence of bytes. -/
abbrev Bytes := List Nat

/-- `bytes.Compare` from the Go standard library: lexicographic byte order.
Returns `.lt`, `.eq`, `.gt` for the Go results `-1`, `0`, `1`. -/
def bytesCompare : Bytes → Bytes → Ordering
  | [], [] => .eq
  | [], _ :: _ => .lt
  | _ :: _, [] => .gt
  | a :: as, b :: bs =>
    if a < b then .lt else if b < a then .gt else bytesCompare as bs

/-- `ceil` from `util.go`: `if a%b == 0 { return a/b }; return a/b + 1`. -/
def ceil (a b : Nat) : Nat :=
  if a % b = 0 then a / b else a / b + 1

/-- The payload of the Go `pointer` struct: `data interface{}` holds either
a `*node` (internal nodes) or a `[]byte` value (leaf nodes). -/
inductive PData where
  | node (id : Nat)
  | val (v : Bytes)
deriving DecidableEq, Repr

/-- A `*pointer` slot in a node's `pointers` array; `none` is a nil
`*pointer`. -/
abbrev Slot := Option PData

/-- The Go `node` struct from the package. -/
structure GoNode where
  leaf : Bool
  parent : Option Nat
  keys : List Bytes
  keyNums : Nat
  pointers : List Slot
deriving DecidableEq, Repr

instance : Inhabited GoNode :=
  ⟨{ leaf := false, parent := none, keys := [], keyNums := 0, pointers := [] }⟩

/-- The store of allocated nodes; a `*node` is an index into it. -/
abbrev Heap := List GoNode

/-- Read a node from the heap (a `*node` dereference). -/
def hGet (h : Heap) (id : Nat) : GoNode := h.getD id default

/-- Write a node back to the heap (mutation of the pointed-to node). -/
def hSet (h : Heap) (id : Nat) (n : GoNode) : Heap := h.set id n

/-- `pointer.convertToNode`: the type assertion `p.data.(*node)`; panics
(`none`) on a nil `*pointer` or on a value payload. -/
def convertToNode : Slot → Option Nat
  | some (.node id) => some id
  | _ => none

/-- `pointer.convertToValue`: the type assertion `p.data.([]byte)`; panics
(`none`) on a nil `*pointer` or on a node payload. -/
def convertToValue : Slot → Option Bytes
  | some (.val v) => some v
  | _ => none

/-- The Go `BPlusTree` struct. -/
structure TreeState where
  heap : Heap
  root : Option Nat
  mostLeftNode : Option Nat
  order : Nat
  size : Nat
  minKeyNum : Nat
deriving DecidableEq, Repr

instance : Inhabited TreeState :=
  ⟨{ heap := [], root := none, mostLeftNode := none, order := 0, size := 0, minKeyNum := 0 }⟩

/-- `defaultOrder = 4`. -/
def defaultOrder : Nat := 4

/-- Applies the `SetOrder` options in order; `SetOrder` errors (`none`)
when the requested order is less than 3. -/
def applyOptions : TreeState → List Nat → Option TreeState
  | s, [] => some s
  | s, o :: rest =>
    if o < 3 then none else applyOptions { s with order := o } rest

/-- `NewBPlusTree(options...)`: builds the empty tree with the default
order, applies the options, then sets `minKeyNum = ceil(order, 2) - 1`. -/
def newBPlusTree (opts : List Nat) : Option TreeState := do
  let base : TreeState :=
    { heap := [], root := none, mostLeftNode := none,
      order := defaultOrder, size := 0, minKeyNum := 0 }
  let s ← applyOptions base opts
  some { s with minKeyNum := ceil s.order 2 - 1 }

/-- The loop `for i := hi; i > lo; i-- { l[i] = l[i-1] }` (shift right by
one over the segment `(lo, hi]`). -/
def shiftUp (d : α) (lo : Nat) : List α → Nat → List α
  | l, 0 => l
  | l, hi + 1 =>
    if hi + 1 ≤ lo then l
    else shiftUp d lo (l.set (hi + 1) (l.getD hi d)) hi

/-- The loop `for i := pos; i < pos+cnt; i++ { l[i] = l[i+1] }` (shift left
by one, `cnt` iterations starting at `pos`). -/
def shiftDown (d : α) : List α → Nat → Nat → List α
  | l, _, 0 => l
  | l, pos, cnt + 1 => shiftDown d (l.set pos (l.getD (pos + 1) d)) (pos + 1) cnt

/-- Go `copy(dst, src)`: overwrites the first `min(len(dst), len(src))`
elements of `dst` with those of `src`, keeping the rest of `dst`. -/
def goCopy (dst src : List α) : List α :=
  src.take dst.length ++ dst.drop (min src.length dst.length)

/-- `BPlusTree.init(key, value)` (lines 55-69).  Note that the source does
`copy(keys[0], key)`, copying into the nil slice `keys[0]`, which copies
zero bytes: the key argument is discarded and `keys[0]` stays nil.  Also
note `pointers := make([]*pointer, bpt.order-1)`: the first leaf gets only
`order-1` pointer slots (split-created leaves get `order`). -/
def initTree (s : TreeState) (key value : Bytes) : TreeState :=
  let nid := s.heap.length
  let keys : List Bytes := List.replicate (s.order - 1) []
  let pointers : List Slot := (List.replicate (s.order - 1) none).set 0 (some (.val value))
  let root : GoNode :=
    { leaf := true, parent := none, keys := keys, keyNums := 1, pointers := pointers }
  { s with heap := s.heap ++ [root], root := some nid,
           mostLeftNode := some nid, size := s.size + 1 }

/-- The scan `for position < keyNums { if Compare(key, keys[position]) < 0
{ break }; position++ }` shared by `findLeafByKey`, `putIntoParent` and
`putIntoParentAndSplit`; `rem` is the number of remaining iterations. -/
def findPosFrom (keys : List Bytes) (key : Bytes) : Nat → Nat → Nat
  | pos, 0 => pos
  | pos, rem + 1 =>
    if bytesCompare key (keys.getD pos []) = .lt then pos
    else findPosFrom keys key (pos + 1) rem

/-- The descent loop of `findLeafByKey` (lines 87-101), starting from node
`cur`; `none` models a panic (child slot is nil or a value) or fuel
exhaustion. -/
def findLeafLoop (h : Heap) (key : Bytes) : Nat → Nat → Option Nat
  | 0, _ => none
  | fuel + 1, cur =>
    let n := hGet h cur
    if n.leaf then some cur
    else
      match convertToNode (n.pointers.getD (findPosFrom n.keys key 0 n.keyNums) none) with
      | some cid => findLeafLoop h key fuel cid
      | none => none

/-- The match scan of `Get` (lines 78-82): looks for an exact key match in
the leaf; on a match converts the slot to a value (panic if the slot is nil
or a node). -/
def getScan (n : GoNode) (key : Bytes) : Nat → Nat → Option (Option Bytes × Bool)
  | _, 0 => some (none, false)
  | i, rem + 1 =>
    if bytesCompare key (n.keys.getD i []) = .eq then
      match convertToValue (n.pointers.getD i none) with
      | some v => some (some v, true)
      | none => none
    else getScan n key (i + 1) rem

/-- `BPlusTree.Get(key)` (lines 73-84), threading the tree state (the
source performs no mutation; the returned state is whatever the execution
leaves, which the frame theorem shows equals the input). -/
def getOp (fuel : Nat) (s : TreeState) (key : Bytes) :
    Option ((Option Bytes × Bool) × TreeState) :=
  match s.root with
  | none => some ((none, false), s)
  | some rid => do
    let lid ← findLeafLoop s.heap key fuel rid
    let n := hGet s.heap lid
    let r ← getScan n key 0 n.keyNums
    some (r, s)

/-- The insert-position scan of `putIntoLeaf` (lines 120-134): stops with
`true` on an exact match, with `false` at the first larger key or at the
end. -/
def putScan (keys : List Bytes) (k : Bytes) : Nat → Nat → Nat × Bool
  | pos, 0 => (pos, false)
  | pos, rem + 1 =>
    match bytesCompare k (keys.getD pos []) with
    | .eq => (pos, true)
    | .lt => (pos, false)
    | .gt => putScan keys k (pos + 1) rem

/-- `node.insertAt(keyPosition, pointerPosition, key, p)` from the node
file: shifts keys after `keyPosition`, for internal nodes reparents `p`'s
node (panic if `p` is not a node), shifts pointers after
`pointerPosition`, then writes the entry and increments `keyNums`. -/
def nodeInsertAt (h : Heap) (nid kp pp : Nat) (key : Bytes) (p : Slot) : Option Heap :=
  let n0 := hGet h nid
  let h1 := hSet h nid { n0 with keys := shiftUp [] kp n0.keys n0.keyNums }
  let n1 := hGet h1 nid
  let pointerNums := if n1.leaf then n1.keyNums else n1.keyNums + 1
  let h2? : Option Heap :=
    if n1.leaf then some h1
    else
      match convertToNode p with
      | some cid => some (hSet h1 cid { hGet h1 cid with parent := some nid })
      | none => none
  match h2? with
  | none => none
  | some h2 =>
    let n2 := hGet h2 nid
    let h3 := hSet h2 nid { n2 with pointers := shiftUp none pp n2.pointers pointerNums }
    let n3 := hGet h3 nid
    some (hSet h3 nid
      { n3 with keyNums := n3.keyNums + 1,
                keys := n3.keys.set kp key,
                pointers := n3.pointers.set pp p })

/-- `node.deleteAt(keyPosition, pointerPosition)` from the node file.
Note that the pointer shift loop runs `for i := pointerPosition;
i < n.keyNums-1; i++` — bounded by the KEY count, exactly as in the
source. -/
def nodeDeleteAt (h : Heap) (nid kp pp : Nat) : Heap :=
  let n0 := hGet h nid
  let keys1 := shiftDown [] n0.keys kp (n0.keyNums - 1 - kp)
  let keys2 := keys1.set (n0.keyNums - 1) []
  let pointerNums := if n0.leaf then n0.keyNums else n0.keyNums + 1
  let ptrs1 := shiftDown none n0.pointers pp (n0.keyNums - 1 - pp)
  let ptrs2 := ptrs1.set (pointerNums - 1) none
  hSet h nid { n0 with keys := keys2, pointers := ptrs2, keyNums := n0.keyNums - 1 }

/-- `node.append(key, p)` from the node file: writes at position
`keyNums`, bumping the pointer position by one for an internal node whose
slot there is occupied; for internal nodes reparents `p`'s node (panic if
`p` is not a node). -/
def nodeAppend (h : Heap) (nid : Nat) (key : Bytes) (p : Slot) : Option Heap :=
  let n := hGet h nid
  let kp := n.keyNums
  let pp := if !n.leaf && (n.pointers.getD kp none).isSome then kp + 1 else kp
  let h1 := hSet h nid
    { n with keys := n.keys.set kp key, pointers := n.pointers.set pp p,
             keyNums := n.keyNums + 1 }
  if n.leaf then some h1
  else
    match convertToNode p with
    | some cid => some (hSet h1 cid { hGet h1 cid with parent := some nid })
    | none => none

/-- The scan of `node.keyPosition(key)`: first exact match below
`keyNums`, else `-1` (modelled as `none`). -/
def keyPositionFrom (keys : List Bytes) (key : Bytes) : Nat → Nat → Option Nat
  | _, 0 => none
  | i, rem + 1 =>
    if bytesCompare key (keys.getD i []) = .eq then some i
    else keyPositionFrom keys key (i + 1) rem

/-- `node.keyPosition(key)`. -/
def keyPosition (n : GoNode) (key : Bytes) : Option Nat :=
  keyPositionFrom n.keys key 0 n.keyNums

/-- The loop of `node.getPointerPositionOfNode(target)`: walks the pointer
slots; a nil slot breaks with `-1` (`none`); a value slot panics in
`convertToNode` (also `none`). -/
def pointerPositionLoop (target : Nat) : List Slot → Nat → Option Nat
  | [], _ => none
  | none :: _, _ => none
  | some (.node id) :: rest, i =>
    if id = target then some i else pointerPositionLoop target rest (i + 1)
  | some (.val _) :: _, _ => none

/-- `node.getPointerPositionOfNode(target)`. -/
def getPointerPositionOfNode (n : GoNode) (target : Nat) : Option Nat :=
  pointerPositionLoop target n.pointers 0

/-- `node.setLastPointer(p)`: sets the final pointer slot; errors (`none`)
on a non-leaf node. -/
def setLastPointer (h : Heap) (nid : Nat) (p : Slot) : Option Heap :=
  let n := hGet h nid
  if n.leaf then
    some (hSet h nid { n with pointers := n.pointers.set (n.pointers.length - 1) p })
  else none

/-- `node.pointerToNextLeafNode()`: the last pointer slot. -/
def pointerToNextLeafNode (n : GoNode) : Slot :=
  n.pointers.getD (n.pointers.length - 1) none

/-- The cleanup loop of `putIntoLeafAndSplit`:
`for i := len(left.keys)-1; i >= copyFrom; i-- { keys[i] = nil;
pointers[i] = nil }`; `cnt` is the number of iterations, `i` the current
index. -/
def leafCleanupLoop (nid : Nat) : Heap → Nat → Nat → Heap
  | h, _, 0 => h
  | h, i, cnt + 1 =>
    let n := hGet h nid
    leafCleanupLoop nid
      (hSet h nid { n with keys := n.keys.set i [], pointers := n.pointers.set i none })
      (i - 1) cnt

/-- The cleanup loop of `putIntoParentAndSplit`:
`for i := len(left.keys)-1; i >= copyFrom; i-- { keys[i] = nil;
pointers[i+1] = nil }`. -/
def parentCleanupLoop (nid : Nat) : Heap → Nat → Nat → Heap
  | h, _, 0 => h
  | h, i, cnt + 1 =>
    let n := hGet h nid
    parentCleanupLoop nid
      (hSet h nid { n with keys := n.keys.set i [], pointers := n.pointers.set (i + 1) none })
      (i - 1) cnt

/-- The reparenting loops at the end of `putIntoParentAndSplit`:
`for _, p := range pointers { if p != nil { p.convertToNode().parent =
owner } }`; a value slot panics in `convertToNode`. -/
def reparentAll (owner : Nat) : Heap → List Slot → Option Heap
  | h, [] => some h
  | h, none :: rest => reparentAll owner h rest
  | h, some (.node cid) :: rest =>
    reparentAll owner (hSet h cid { hGet h cid with parent := some owner }) rest
  | _, some (.val _) :: _ => none

/-- `BPlusTree.putIntoLeafAndSplit(n, insertPos, k, v)` (lines 330-379):
allocates the right leaf, copies the tail across (note the value slice
`n.pointers[copyFrom : len(n.pointers)-1]`), moves the next-leaf link,
truncates the left node, wires its last pointer to the right node, and
inserts the new entry into whichever side the position falls in. -/
def putIntoLeafAndSplit (s : TreeState) (nid insertPos : Nat) (k v : Bytes) :
    Option (Nat × Nat × TreeState) := do
  let rightId := s.heap.length
  let right0 : GoNode :=
    { leaf := true, parent := none,
      keys := List.replicate (s.order - 1) [], keyNums := 0,
      pointers := List.replicate s.order none }
  let h0 := s.heap ++ [right0]
  let n := hGet h0 nid
  let middlePos := ceil n.keys.length 2
  let copyFrom := if insertPos < middlePos then middlePos - 1 else middlePos
  let right1 :=
    { right0 with
        keys := goCopy right0.keys (n.keys.drop copyFrom),
        pointers := goCopy right0.pointers
          ((n.pointers.take (n.pointers.length - 1)).drop copyFrom) }
  let h1 := hSet h0 rightId right1
  let h2 ← setLastPointer h1 rightId (pointerToNextLeafNode n)
  let h3 := hSet h2 rightId { hGet h2 rightId with keyNums := right1.keys.length - copyFrom }
  let nL := hGet h3 nid
  let h4 := hSet h3 nid { nL with parent := none, keyNums := copyFrom }
  let h5 := leafCleanupLoop nid h4 ((hGet h4 nid).keys.length - 1)
              ((hGet h4 nid).keys.length - copyFrom)
  let h6 ← setLastPointer h5 nid (some (.node rightId))
  let insertTarget := if insertPos < middlePos then nid else rightId
  let insertPos2 := if insertPos < middlePos then insertPos else insertPos - middlePos
  let h7 ← nodeInsertAt h6 insertTarget insertPos2 insertPos2 k (some (.val v))
  some (nid, rightId, { s with heap := h7 })

/-- `BPlusTree.putIntoNewRoot(key, l, r)` (lines 214-232). -/
def putIntoNewRoot (s : TreeState) (key : Bytes) (l r : Nat) : TreeState :=
  let rid := s.heap.length
  let newRoot : GoNode :=
    { leaf := false, parent := none,
      keys := (List.replicate (s.order - 1) []).set 0 key, keyNums := 1,
      pointers := ((List.replicate s.order none).set 0 (some (.node l))).set 1
        (some (.node r)) }
  let h1 := s.heap ++ [newRoot]
  let h2 := hSet h1 l { hGet h1 l with parent := some rid }
  let h3 := hSet h2 r { hGet h2 r with parent := some rid }
  { s with heap := h3, root := some rid }

/-- `BPlusTree.putIntoParent(parent, k, l, r)` (lines 182-210): scans the
insert position, duplicates the last pointer upward, shifts, writes the
separator and the two child pointers, and reparents both children. -/
def putIntoParent (s : TreeState) (pid : Nat) (k : Bytes) (l r : Nat) : TreeState :=
  let p := hGet s.heap pid
  let insertPos := findPosFrom p.keys k 0 p.keyNums
  let ptrs0 := p.pointers.set (p.keyNums + 1) (p.pointers.getD p.keyNums none)
  let keys1 := shiftUp [] insertPos p.keys p.keyNums
  let ptrs1 := shiftUp none insertPos ptrs0 p.keyNums
  let keys2 := keys1.set insertPos k
  let ptrs2 := (ptrs1.set insertPos (some (.node l))).set (insertPos + 1) (some (.node r))
  let h1 := hSet s.heap pid { p with keys := keys2, pointers := ptrs2, keyNums := p.keyNums + 1 }
  let h2 := hSet h1 l { hGet h1 l with parent := some pid }
  let h3 := hSet h2 r { hGet h2 r with parent := some pid }
  { s with heap := h3 }

/-- `BPlusTree.putIntoParentAndSplit(parent, k, l, r)` (lines 236-323):
splits a full internal node while inserting the separator `k` with
children `l`, `r`, removes the promoted key (and its first pointer) from
the right node, and reparents every child of both halves. -/
def putIntoParentAndSplit (s : TreeState) (pid : Nat) (k : Bytes) (l r : Nat) :
    Option (Bytes × Nat × Nat × TreeState) := do
  let p0 := hGet s.heap pid
  let insertPos := findPosFrom p0.keys k 0 p0.keyNums
  let rightId := s.heap.length
  let right0 : GoNode :=
    { leaf := false, parent := none,
      keys := List.replicate (s.order - 1) [], keyNums := 0,
      pointers := List.replicate s.order none }
  let h0 := s.heap ++ [right0]
  let p := hGet h0 pid
  let middlePos := ceil p.keys.length 2
  let copyFrom := if insertPos < middlePos then middlePos - 1 else middlePos
  let right1 :=
    { right0 with
        keys := goCopy right0.keys (p.keys.drop copyFrom),
        pointers := goCopy right0.pointers (p.pointers.drop copyFrom),
        keyNums := right0.keys.length - copyFrom }
  let h1 := hSet h0 rightId right1
  let h2 := hSet h1 pid { p with keyNums := copyFrom }
  let h3 := parentCleanupLoop pid h2 ((hGet h2 pid).keys.length - 1)
              ((hGet h2 pid).keys.length - copyFrom)
  let insertTarget := if insertPos ≥ middlePos then rightId else pid
  let insertPos2 := if insertPos ≥ middlePos then insertPos - middlePos else insertPos
  let nI := hGet h3 insertTarget
  let ptrsA := nI.pointers.set (nI.keyNums + 1) (nI.pointers.getD nI.keyNums none)
  let keysA := shiftUp [] insertPos2 nI.keys nI.keyNums
  let ptrsB := shiftUp none insertPos2 ptrsA nI.keyNums
  let keysB := keysA.set insertPos2 k
  let ptrsC := (ptrsB.set insertPos2 (some (.node l))).set (insertPos2 + 1) (some (.node r))
  let h4 := hSet h3 insertTarget { nI with keys := keysB, pointers := ptrsC, keyNums := nI.keyNums + 1 }
  let h5 := hSet h4 l { hGet h4 l with parent := some insertTarget }
  let h6 := hSet h5 r { hGet h5 r with parent := some insertTarget }
  let rN := hGet h6 rightId
  let middleKey := rN.keys.getD 0 []
  let keysR := shiftDown [] rN.keys 0 (rN.keyNums - 1)
  let ptrsR0 := shiftDown none rN.pointers 0 (rN.keyNums - 1)
  let ptrsR1 := ptrsR0.set (rN.keyNums - 1) (ptrsR0.getD rN.keyNums none)
  let ptrsR2 := ptrsR1.set rN.keyNums none
  let keysR2 := keysR.set (rN.keyNums - 1) []
  let h7 := hSet h6 rightId { rN with keys := keysR2, pointers := ptrsR2, keyNums := rN.keyNums - 1 }
  let h8 ← reparentAll pid h7 (hGet h7 pid).pointers
  let h9 ← reparentAll rightId h8 (hGet h8 rightId).pointers
  some (middleKey, pid, rightId, { s with heap := h9 })

/-- The upward propagation loop of `putIntoLeaf` (lines 157-174):
`for left != nil && right != nil { ... }`; the loop either builds a new
root, inserts into a parent with room, or splits the parent and
continues with the grandparent (read from the mutated parent). -/
def propagateLoop (s : TreeState) (parentOpt : Option Nat) (insertKey : Bytes)
    (l r : Nat) : Nat → Option TreeState
  | 0 => none
  | fuel + 1 =>
    match parentOpt with
    | none => some (putIntoNewRoot s insertKey l r)
    | some pid =>
      let p := hGet s.heap pid
      if p.keyNums < p.keys.length then some (putIntoParent s pid insertKey l r)
      else do
        let (k2, l2, r2, s2) ← putIntoParentAndSplit s pid insertKey l r
        propagateLoop s2 ((hGet s2.heap pid).parent) k2 l2 r2 fuel

/-- `BPlusTree.putIntoLeaf(n, k, v)` (lines 119-178): override on exact
match (returning the old value), in-place insert when the leaf has room,
otherwise split and propagate; `size` is incremented on the non-override
paths. -/
def putIntoLeaf (fuel : Nat) (s : TreeState) (nid : Nat) (k v : Bytes) :
    Option ((Option Bytes × Bool) × TreeState) :=
  let n := hGet s.heap nid
  let (insertPos, found) := putScan n.keys k 0 n.keyNums
  if found then
    match n.pointers.getD insertPos none with
    | some (.val oldValue) =>
      let h1 := hSet s.heap nid { n with pointers := n.pointers.set insertPos (some (.val v)) }
      some ((some oldValue, true), { s with heap := h1 })
    | _ => none
  else if n.keyNums < n.keys.length then
    let keys1 := shiftUp [] insertPos n.keys n.keyNums
    let ptrs1 := shiftUp none insertPos n.pointers n.keyNums
    let n1 := { n with keys := keys1.set insertPos k,
                       pointers := ptrs1.set insertPos (some (.val v)),
                       keyNums := n.keyNums + 1 }
    let s1 := { s with heap := hSet s.heap nid n1 }
    some ((none, false), { s1 with size := s1.size + 1 })
  else do
    let parentOpt := n.parent
    let (l, r, s1) ← putIntoLeafAndSplit s nid insertPos k v
    let insertKey := (hGet s1.heap r).keys.getD 0 []
    let s2 ← propagateLoop s1 parentOpt insertKey l r fuel
    some ((none, false), { s2 with size := s2.size + 1 })

/-- `BPlusTree.Put(key, value)` (lines 107-115). -/
def putOp (fuel : Nat) (s : TreeState) (k v : Bytes) :
    Option ((Option Bytes × Bool) × TreeState) :=
  match s.root with
  | none => some ((none, false), initTree s k v)
  | some rid => do
    let lid ← findLeafLoop s.heap k fuel rid
    putIntoLeaf fuel s lid k v

/-- The Go `Iterator` struct from `iterator.go`. -/
structure GoIterator where
  next : Option Nat
  i : Nat
deriving DecidableEq, Repr

/-- `BPlusTree.Iterator()`: starts at `mostLeftNode`, position 0. -/
def iteratorOp (s : TreeState) : GoIterator :=
  { next := s.mostLeftNode, i := 0 }

/-- `Iterator.HasNext()`: `it.next != nil && it.i < it.next.keyNums`. -/
def hasNext (s : TreeState) (it : GoIterator) : Bool :=
  match it.next with
  | none => false
  | some id => it.i < (hGet s.heap id).keyNums

/-- `Iterator.Next()` (iterator.go lines 23-44): panics (`none`) when
`HasNext` is false; otherwise reads the entry at the cursor (panic if the
slot is not a value), advances, and on exhausting the leaf follows the
trailing pointer (panic if that non-nil slot is not a node). -/
def nextOp (s : TreeState) (it : GoIterator) : Option ((Bytes × Bytes) × GoIterator) :=
  if hasNext s it then do
    match it.next with
    | none => none
    | some id =>
      let n := hGet s.heap id
      let key := n.keys.getD it.i []
      let value ← convertToValue (n.pointers.getD it.i none)
      let i1 := it.i + 1
      if i1 = n.keyNums then
        match pointerToNextLeafNode n with
        | none => some ((key, value), { next := none, i := 0 })
        | some p => do
          let nid ← convertToNode (some p)
          some ((key, value), { next := some nid, i := 0 })
      else
        some ((key, value), { next := some id, i := i1 })
  else none

/-- The drain loop of `ForEach` (lines 616-621): `for it := Iterator();
it.HasNext(); { key, value := it.Next(); action(key, value) }`, collecting
the visited pairs; `none` models a panic inside `Next` or fuel
exhaustion. -/
def forEachLoop (s : TreeState) : GoIterator → List (Bytes × Bytes) → Nat →
    Option (List (Bytes × Bytes))
  | _, _, 0 => none
  | it, acc, fuel + 1 =>
    if hasNext s it then do
      let (kv, it2) ← nextOp s it
      forEachLoop s it2 (acc ++ [kv]) fuel
    else some acc

/-- `BPlusTree.ForEach(action)`, with the visit action instantiated to
collecting the `(key, value)` pairs in order. -/
def forEachCollect (fuel : Nat) (s : TreeState) : Option (List (Bytes × Bytes)) :=
  forEachLoop s (iteratorOp s) [] fuel

/-- `BPlusTree.Size()`. -/
def sizeOp (s : TreeState) : Nat := s.size

/-- `node.copyFromRight(from)` append loop: `for i := 0; i < from.keyNums;
i++ { n.append(from.keys[i], from.pointers[i]) }`. -/
def copyFromRightLoop (nid fromId : Nat) : Heap → Nat → Nat → Option Heap
  | h, _, 0 => some h
  | h, i, rem + 1 => do
    let fromN := hGet h fromId
    let h1 ← nodeAppend h nid (fromN.keys.getD i []) (fromN.pointers.getD i none)
    copyFromRightLoop nid fromId h1 (i + 1) rem

/-- `node.copyFromRight(from)` from the node file: appends all of `from`'s
entries, then for leaves takes over `from`'s next-leaf link (the
`setLastPointer` error is discarded), and for internal nodes takes over
`from`'s last child pointer, reparenting it (panic if it is not a node). -/
def copyFromRight (h : Heap) (nid fromId : Nat) : Option Heap := do
  let h1 ← copyFromRightLoop nid fromId h 0 (hGet h fromId).keyNums
  let n := hGet h1 nid
  if n.leaf then
    match setLastPointer h1 nid (pointerToNextLeafNode (hGet h1 fromId)) with
    | some h2 => some h2
    | none => some h1
  else
    let fromN := hGet h1 fromId
    let moved := fromN.pointers.getD fromN.keyNums none
    let h2 := hSet h1 nid { n with pointers := n.pointers.set n.keyNums moved }
    match convertToNode moved with
    | some cid => some (hSet h2 cid { hGet h2 cid with parent := some nid })
    | none => none

/-- `findLeftmostKey(n)` (lines 456-463): follow the first pointer down to
a leaf and return its first key. -/
def findLeftmostKey (h : Heap) : Nat → Nat → Option Bytes
  | 0, _ => none
  | fuel + 1, nid =>
    let n := hGet h nid
    if n.leaf then some (n.keys.getD 0 [])
    else
      match convertToNode (n.pointers.getD 0 none) with
      | some cid => findLeftmostKey h fuel cid
      | none => none

/-- The inner scan of `removeFromIndex` (lines 436-449) at node `cid`:
advances past smaller keys, stops before a larger key, and on an exact
match overwrites the separator with the leftmost key of the right subtree
and re-compares at the same position (the position is not advanced). -/
def removeFromIndexScan (key : Bytes) (cid : Nat) : Nat → Heap → Nat → Option (Nat × Heap)
  | 0, _, _ => none
  | fuel + 1, h, position =>
    let n := hGet h cid
    if position < n.keyNums then
      match bytesCompare key (n.keys.getD position []) with
      | .lt => some (position, h)
      | .gt => removeFromIndexScan key cid fuel h (position + 1)
      | .eq => do
        let rid ← convertToNode (n.pointers.getD (position + 1) none)
        let newKey ← findLeftmostKey h fuel rid
        let h1 := hSet h cid { n with keys := n.keys.set position newKey }
        removeFromIndexScan key cid fuel h1 position
    else some (position, h)

/-- The descent loop of `BPlusTree.removeFromIndex(key)` (lines 431-453):
walks from the root to a leaf, repairing any separator equal to `key`
along the way. -/
def removeFromIndexLoop (key : Bytes) : Nat → Heap → Nat → Option Heap
  | 0, _, _ => none
  | fuel + 1, h, cid =>
    let n := hGet h cid
    if n.leaf then some h
    else do
      let (position, h1) ← removeFromIndexScan key cid fuel h 0
      let nid ← convertToNode ((hGet h1 cid).pointers.getD position none)
      removeFromIndexLoop key fuel h1 nid

/-- `BPlusTree.removeFromIndex(key)`: starts at the root (a nil root would
be a nil dereference in the source). -/
def removeFromIndex (fuel : Nat) (s : TreeState) (key : Bytes) : Option TreeState := do
  match s.root with
  | none => none
  | some rid =>
    let h ← removeFromIndexLoop key fuel s.heap rid
    some { s with heap := h }

/-- `BPlusTree.rebalanceParentNode(n)` (lines 525-613): for the root,
collapses the height when it has no keys left; otherwise, when
underflowed, borrows from the left sibling (pulling the split key down in
front of `n`), else from the right sibling (appending the split key to
`n`), else merges with a sibling (folding the split key in) and recurses
on the parent. -/
def rebalanceParentNode (s : TreeState) : Nat → Nat → Option TreeState
  | 0, _ => none
  | fuel + 1, nid =>
    let n := hGet s.heap nid
    match n.parent with
    | none =>
      if n.keyNums = 0 then do
        let newRootId ← convertToNode (n.pointers.getD 0 none)
        let h1 := hSet s.heap newRootId { hGet s.heap newRootId with parent := none }
        some { s with heap := h1, root := some newRootId }
      else some s
    | some pid =>
      if n.keyNums ≥ s.minKeyNum then some s
      else do
        let parent := hGet s.heap pid
        let pointerPositionInParent ← getPointerPositionOfNode parent nid
        let keyPositionInParent :=
          if pointerPositionInParent = 0 then 0 else pointerPositionInParent - 1
        -- check left sibling
        let leftStep : Option (Option TreeState × Option Nat) :=
          if 1 ≤ pointerPositionInParent then do
            let lsId ← convertToNode (parent.pointers.getD (pointerPositionInParent - 1) none)
            let ls := hGet s.heap lsId
            if ls.keyNums > s.minKeyNum then do
              let splitKey := parent.keys.getD keyPositionInParent []
              let movedSlot := ls.pointers.getD ls.keyNums none
              let movedChild ← convertToNode movedSlot
              let h1 := hSet s.heap movedChild { hGet s.heap movedChild with parent := some nid }
              let h2 ← nodeInsertAt h1 nid 0 0 splitKey movedSlot
              let p2 := hGet h2 pid
              let newSep := (hGet h2 lsId).keys.getD ((hGet h2 lsId).keyNums - 1) []
              let h3 := hSet h2 pid { p2 with keys := p2.keys.set keyPositionInParent newSep }
              let h4 := nodeDeleteAt h3 lsId ((hGet h3 lsId).keyNums - 1) (hGet h3 lsId).keyNums
              some (some { s with heap := h4 }, some lsId)
            else some (none, some lsId)
          else some (none, none)
        match leftStep with
        | none => none
        | some (some sDone, _) => some sDone
        | some (none, leftSibling) =>
          let rightSiblingPosition := pointerPositionInParent + 1
          let rightStep : Option (Option TreeState × Option Nat) :=
            if rightSiblingPosition < parent.keyNums + 1 then do
              let rsId ← convertToNode (parent.pointers.getD rightSiblingPosition none)
              let rs := hGet s.heap rsId
              if rs.keyNums > s.minKeyNum then do
                let splitKeyPosition := rightSiblingPosition - 1
                let splitKey := parent.keys.getD splitKeyPosition []
                let h1 ← nodeAppend s.heap nid splitKey (rs.pointers.getD 0 none)
                let p1 := hGet h1 pid
                let newSep := (hGet h1 rsId).keys.getD 0 []
                let h2 := hSet h1 pid { p1 with keys := p1.keys.set splitKeyPosition newSep }
                let h3 := nodeDeleteAt h2 rsId 0 0
                some (some { s with heap := h3 }, some rsId)
              else some (none, some rsId)
            else some (none, none)
          match rightStep with
          | none => none
          | some (some sDone, _) => some sDone
          | some (none, rightSibling) => do
            let sMerged ←
              match leftSibling with
              | some lsId => do
                let splitKey := parent.keys.getD keyPositionInParent []
                let ls := hGet s.heap lsId
                let h1 := hSet s.heap lsId
                  { ls with keys := ls.keys.set ls.keyNums splitKey, keyNums := ls.keyNums + 1 }
                let h2 ← copyFromRight h1 lsId nid
                let h3 := nodeDeleteAt h2 pid keyPositionInParent pointerPositionInParent
                some { s with heap := h3 }
              | none =>
                match rightSibling with
                | some rsId => do
                  let splitKey := parent.keys.getD keyPositionInParent []
                  let h1 := hSet s.heap nid
                    { n with keys := n.keys.set n.keyNums splitKey, keyNums := n.keyNums + 1 }
                  let h2 ← copyFromRight h1 nid rsId
                  let h3 := nodeDeleteAt h2 pid keyPositionInParent rightSiblingPosition
                  some { s with heap := h3 }
                | none => some s
            rebalanceParentNode sMerged fuel pid

/-- `BPlusTree.rebalancedFromLeafNode(n)` (lines 466-522): borrow the left
sibling's last entry, else the right sibling's first entry, updating the
governing separator; otherwise merge into the first available sibling,
remove the navigator key/pointer from the parent, and rebalance the
parent. -/
def rebalancedFromLeafNode (fuel : Nat) (s : TreeState) (nid : Nat) : Option TreeState := do
  let n := hGet s.heap nid
  match n.parent with
  | none => none
  | some pid =>
    let parent := hGet s.heap pid
    let pointerPositionInParent ← getPointerPositionOfNode parent nid
    let keyPositionInParent :=
      if pointerPositionInParent = 0 then 0 else pointerPositionInParent - 1
    let leftStep : Option (Option TreeState × Option Nat) :=
      if 1 ≤ pointerPositionInParent then do
        let lsId ← convertToNode (parent.pointers.getD (pointerPositionInParent - 1) none)
        let ls := hGet s.heap lsId
        if ls.keyNums > s.minKeyNum then do
          let h1 ← nodeInsertAt s.heap nid 0 0 (ls.keys.getD (ls.keyNums - 1) [])
            (ls.pointers.getD (ls.keyNums - 1) none)
          let h2 := nodeDeleteAt h1 lsId ((hGet h1 lsId).keyNums - 1) ((hGet h1 lsId).keyNums - 1)
          let p2 := hGet h2 pid
          let newSep := (hGet h2 nid).keys.getD 0 []
          let h3 := hSet h2 pid { p2 with keys := p2.keys.set keyPositionInParent newSep }
          some (some { s with heap := h3 }, some lsId)
        else some (none, some lsId)
      else some (none, none)
    match leftStep with
    | none => none
    | some (some sDone, _) => some sDone
    | some (none, leftSibling) =>
      let rightSiblingPosition := pointerPositionInParent + 1
      let rightStep : Option (Option TreeState × Option Nat) :=
        if rightSiblingPosition < parent.keyNums + 1 then do
          let rsId ← convertToNode (parent.pointers.getD rightSiblingPosition none)
          let rs := hGet s.heap rsId
          if rs.keyNums > s.minKeyNum then do
            let h1 ← nodeAppend s.heap nid (rs.keys.getD 0 []) (rs.pointers.getD 0 none)
            let h2 := nodeDeleteAt h1 rsId 0 0
            let p2 := hGet h2 pid
            let newSep := (hGet h2 rsId).keys.getD 0 []
            let h3 := hSet h2 pid { p2 with keys := p2.keys.set (rightSiblingPosition - 1) newSep }
            some (some { s with heap := h3 }, some rsId)
          else some (none, some rsId)
        else some (none, none)
      match rightStep with
      | none => none
      | some (some sDone, _) => some sDone
      | some (none, rightSibling) => do
        let sMerged ←
          match leftSibling with
          | some lsId => do
            let h1 ← copyFromRight s.heap lsId nid
            let h2 := nodeDeleteAt h1 pid keyPositionInParent pointerPositionInParent
            some { s with heap := h2 }
          | none =>
            match rightSibling with
            | some rsId => do
              let h1 ← copyFromRight s.heap nid rsId
              let h2 := nodeDeleteAt h1 pid keyPositionInParent rightSiblingPosition
              some { s with heap := h2 }
            | none => some s
        rebalanceParentNode sMerged fuel pid

/-- `BPlusTree.deleteAtLeafAndRebalance(n, key)` (lines 401-427): absent
key returns `(nil, false)` with no mutation; otherwise reads the value
(panic if the slot is not a value), deletes the entry, handles a root
leaf directly, else rebalances on underflow and repairs the index. -/
def deleteAtLeafAndRebalance (fuel : Nat) (s : TreeState) (nid : Nat) (key : Bytes) :
    Option ((Option Bytes × Bool) × TreeState) :=
  match keyPosition (hGet s.heap nid) key with
  | none => some ((none, false), s)
  | some keyPos => do
    let value ← convertToValue ((hGet s.heap nid).pointers.getD keyPos none)
    let h1 := nodeDeleteAt s.heap nid keyPos keyPos
    let s1 := { s with heap := h1 }
    let n1 := hGet h1 nid
    match n1.parent with
    | none =>
      if n1.keyNums = 0 then some ((some value, true), { s1 with root := none })
      else some ((some value, true), s1)
    | some _ => do
      let s2 ←
        if n1.keyNums < s.minKeyNum then rebalancedFromLeafNode fuel s1 nid
        else some s1
      let s3 ← removeFromIndex fuel s2 key
      some ((some value, true), s3)

/-- `BPlusTree.Delete(key)` (lines 383-398). -/
def deleteOp (fuel : Nat) (s : TreeState) (key : Bytes) :
    Option ((Option Bytes × Bool) × TreeState) :=
  match s.root with
  | none => some ((none, false), s)
  | some rid => do
    let lid ← findLeafLoop s.heap key fuel rid
    let (res, s1) ← deleteAtLeafAndRebalance fuel s lid key
    match res with
    | (_, false) => some ((none, false), s1)
    | (value, true) => some ((value, true), { s1 with size := s1.size - 1 })

/-- A user-level operation, for building concrete scenarios. -/
inductive Op where
  | put (k v : Bytes)
  | del (k : Bytes)

/-- Runs a list of operations from a state, keeping the final state. -/
def runOps (fuel : Nat) : TreeState → List Op → Option TreeState
  | s, [] => some s
  | s, .put k v :: rest => do
    let (_, s1) ← putOp fuel s k v
    runOps fuel s1 rest
  | s, .del k :: rest => do
    let (_, s1) ← deleteOp fuel s k
    runOps fuel s1 rest

/-- The keys a node stores: the first `keyNums` entries of its key
array. -/
def activeKeys (n : GoNode) : List Bytes := n.keys.take n.keyNums

/-- All keys stored in the leaves of the subtree rooted at `nid`,
left to right. -/
def subtreeKeys (h : Heap) : Nat → Nat → List Bytes
  | 0, _ => []
  | fuel + 1, nid =>
    let n := hGet h nid
    if n.leaf then activeKeys n
    else
      ((List.range (n.keyNums + 1)).map fun i =>
        match n.pointers.getD i none with
        | some (.node cid) => subtreeKeys h fuel cid
        | _ => []).flatten

/-- The minimum of a list of byte strings under `bytes.Compare`; `none`
for the empty list. -/
def minKeyOf (l : List Bytes) : Option Bytes :=
  l.foldr
    (fun k acc =>
      match acc with
      | none => some k
      | some m => if bytesCompare k m = .lt then some k else some m)
    none

/-- The separator property of claim C4, checked over a whole subtree:
every internal node's key at position `i` equals the minimum key of the
subtree rooted at its pointer `i+1` (which must exist). -/
def sepInvariantAll (h : Heap) : Nat → Nat → Bool
  | 0, _ => false
  | fuel + 1, nid =>
    let n := hGet h nid
    if n.leaf then true
    else
      ((List.range n.keyNums).all fun i =>
        match n.pointers.getD (i + 1) none with
        | some (.node cid) =>
          match minKeyOf (subtreeKeys h fuel cid) with
          | some m => n.keys.getD i [] == m
          | none => false
        | _ => false) &&
      ((List.range (n.keyNums + 1)).all fun i =>
        match n.pointers.getD i none with
        | some (.node cid) => sepInvariantAll h fuel cid
        | _ => true)

/-- The separator property of claim C4 for a whole tree (vacuous for an
empty tree or a tree whose root is a leaf). -/
def treeSepOK (fuel : Nat) (s : TreeState) : Bool :=
  match s.root with
  | none => true
  | some rid => sepInvariantAll s.heap fuel rid

/-- The leaf-chain walk of claim C3: follows each leaf's trailing pointer
slot starting from the given leaf; `true` iff the walk ends at a nil
slot (`false` if a trailing slot holds a value, or the fuel runs out). -/
def chainTerminatesAtNil (h : Heap) : Nat → Option Nat → Bool
  | _, none => true
  | 0, some _ => false
  | fuel + 1, some nid =>
    match pointerToNextLeafNode (hGet h nid) with
    | none => true
    | some (.node cid) => chainTerminatesAtNil h fuel (some cid)
    | some (.val _) => false

/-- C1 scenario: a default-order tree, `Put([97], [7])`, then
`Get([97])`. -/
def c1Run : Option (Option Bytes × Bool) := do
  let s0 ← newBPlusTree []
  let (_, s1) ← putOp 50 s0 [97] [7]
  let (r, _) ← getOp 50 s1 [97]
  pure r

/-- The order-3 tree after `Put([120], [9])` and `Put([97], [4])`: its
single leaf is the one built by `init` with only `order-1 = 2` pointer
slots, so the second value occupies the trailing next-leaf slot. -/
def twoKeyTree : Option TreeState := do
  let s0 ← newBPlusTree [3]
  runOps 50 s0 [.put [120] [9], .put [97] [4]]

/-- C2 scenario: the order-3 two-key tree drained through `ForEach`. -/
def c2Run : Option (Option (List (Bytes × Bytes))) :=
  twoKeyTree.map fun s => forEachCollect 50 s

/-- C3 scenario: the leaf-chain walk on the order-3 two-key tree. -/
def c3Run : Option Bool :=
  twoKeyTree.map fun s => chainTerminatesAtNil s.heap 10 s.mostLeftNode

/-- C4 scenario: order 4, insert `[1]`..`[8]`, delete `[6]`, `[5]`,
`[7]`, then delete `[4]` (which merges the middle leaf into its left
sibling); returns the result of the final `Delete` and the separator
check on the final tree. -/
def c4Run : Option ((Option Bytes × Bool) × Bool) := do
  let s0 ← newBPlusTree [4]
  let s ← runOps 100 s0
    [.put [1] [1], .put [2] [2], .put [3] [3], .put [4] [4],
     .put [5] [5], .put [6] [6], .put [7] [7], .put [8] [8],
     .del [6], .del [5], .del [7]]
  let (r, s4) ← deleteOp 100 s [4]
  pure (r, treeSepOK 20 s4)

/-- C5 scenario: default order, `Put([120], [9])` then a second
`Put([120], [5])` on the same key; returns the second Put's result and
the size afterwards. -/
def c5Run : Option ((Option Bytes × Bool) × Nat) := do
  let s0 ← newBPlusTree []
  let (_, s1) ← putOp 50 s0 [120] [9]
  let (r, s2) ← putOp 50 s1 [120] [5]
  pure (r, sizeOp s2)

/-- C6 scenario: default order, `Put([120], [9])` then
`Delete([120])`; returns the Delete's result and the size afterwards. -/
def c6Run : Option ((Option Bytes × Bool) × Nat) := do
  let s0 ← newBPlusTree []
  let (_, s1) ← putOp 50 s0 [120] [9]
  let (r, s2) ← deleteOp 50 s1 [120]
  pure (r, sizeOp s2)

/-- C9 scenario: the order-3 two-key tree; after one successful `Next`,
report `HasNext` and the outcome of the second `Next`. -/
def c9Run : Option (Bool × Option ((Bytes × Bytes) × GoIterator)) := do
  let s ← twoKeyTree
  let (_, it1) ← nextOp s (iteratorOp s)
  pure (hasNext s it1, nextOp s it1)

/-- C1: the claim says that after any sequence of `Put`s from a fresh
tree, `Get(k)` for a key `k` of the sequence returns its most recent
value with `found = true`.  On the code, after the single operation
`Put([97], [7])` on a newly constructed default-order tree, `Get([97])`
returns `(nil, false)`: `init` does `copy(keys[0], key)` into a nil
slice, so the first inserted key is stored as the empty key and is never
found again. -/
theorem c1_first_put_key_lost : c1Run = some (none, false) := by decide

/-- C2: the claim says `ForEach` yields exactly the live entries in
strictly ascending key order.  On the order-3 tree holding the two put
keys `[120]` and `[97]`, `ForEach` panics mid-iteration (modelled
`none`): the initial leaf has only `order-1` pointer slots, so the
second value sits in the trailing next-leaf slot and the iterator's leaf
advance calls `convertToNode` on a value. -/
theorem c2_forEach_panics : c2Run = some none := by decide

/-- C3: the claim says the chain of trailing leaf links visits every
leaf and terminates at nil.  On the order-3 tree holding the two put
keys `[120]` and `[97]`, the walk from `mostLeftNode` hits a trailing
slot that holds a value rather than nil or a next leaf. -/
theorem c3_leaf_chain_not_nil_terminated : c3Run = some false := by decide

/-- C4: the claim says that after every completed `Put` or `Delete`
every internal separator equals the minimum key of its right subtree.
In the C4 scenario the final `Delete([4])` completes (returning
`([4], true)`), yet the separator check on the resulting tree fails:
`deleteAt`'s pointer shift loop is bounded by the key count instead of
the pointer count, so the parent keeps a pointer to the merged-away
empty leaf and drops its last live child. -/
theorem c4_separator_invariant_broken : c4Run = some ((some [4], true), false) := by decide

/-- C5: the claim says `Put` on a stored key returns the previous value
with `existed = true` and leaves `Size` unchanged.  On the code, after
`Put([120], [9])` on a fresh default-order tree (which stores the key as
the empty key), a second `Put([120], [5])` returns `(nil, false)` and
`Size` becomes 2. -/
theorem c5_put_existing_key_not_override : c5Run = some ((none, false), 2) := by decide

/-- C6: the claim says `Delete` on a stored key returns its value with
`deleted = true` and decrements `Size`.  On the code, after
`Put([120], [9])` on a fresh default-order tree, `Delete([120])`
returns `(nil, false)` and `Size` stays 1. -/
theorem c6_delete_present_key_not_found : c6Run = some ((none, false), 1) := by decide

/-- C9: the claim says that whenever `HasNext()` is true, `Next()`
returns the entry at the cursor and advances.  On the order-3 two-key
tree, after one successful `Next`, `HasNext` is true yet the second
`Next` panics (modelled `none`) while following the trailing slot, which
holds a value. -/
theorem c9_next_panics_with_hasNext_true : c9Run = some (true, none) := by decide

/-- C10: `Get` never mutates the tree: whenever `Get` completes, the
resulting tree state (heap with every node's fields, root,
`mostLeftNode`, order, size and `minKeyNum`) is the input state. -/
theorem c10_get_never_mutates (fuel : Nat) (s : TreeState) (key : Bytes)
    (r : Option Bytes × Bool) (s2 : TreeState)
    (h : getOp fuel s key = some (r, s2)) : s2 = s := by
  unfold getOp at h
  cases hroot : s.root with
  | none =>
    rw [hroot] at h
    exact (Prod.mk.injEq _ _ _ _ ▸ Option.some.inj h).2.symm
  | some rid =>
    rw [hroot] at h
    obtain ⟨lid, _, h2⟩ := Option.bind_eq_some.mp h
    obtain ⟨rr, _, h3⟩ := Option.bind_eq_some.mp h2
    exact ((Prod.mk.injEq _ _ _ _).mp (Option.some.inj h3)).2.symm

/-- Witness for C10: on the concrete two-key tree, `Get([97])` succeeds
and by `c10_get_never_mutates` leaves the state intact. -/
theorem c10_witness :
    getOp 20 (twoKeyTree.getD default) [97] =
      some ((some [4], true), twoKeyTree.getD default) ∧
    twoKeyTree.getD default = twoKeyTree.getD default :=
  ⟨by decide,
   c10_get_never_mutates 20 (twoKeyTree.getD default) [97] (some [4], true)
     (twoKeyTree.getD default) (by decide)⟩

/-- `bytesCompare` returns `.eq` exactly on equal byte strings. -/
theorem bytesCompare_eq_iff : ∀ a b : Bytes, bytesCompare a b = .eq ↔ a = b
  | [], [] => by simp [bytesCompare]
  | [], _ :: _ => by simp [bytesCompare]
  | _ :: _, [] => by simp [bytesCompare]
  | a :: as, b :: bs => by
    rw [bytesCompare]
    by_cases h1 : a < b
    · simp only [if_pos h1]
      constructor
      · intro hc; cases hc
      · intro hc
        cases hc
        exact absurd h1 (lt_irrefl a)
    · by_cases h2 : b < a
      · simp only [if_neg h1, if_pos h2]
        constructor
        · intro hc; cases hc
        · intro hc
          cases hc
          exact absurd h2 (lt_irrefl a)
      · have hab : a = b := Nat.le_antisymm (Nat.not_lt.mp h2) (Nat.not_lt.mp h1)
        simp [if_neg h1, if_neg h2, hab, bytesCompare_eq_iff as bs]

/-- The shared position scan never goes past its iteration budget. -/
theorem findPosFrom_le (keys : List Bytes) (key : Bytes) :
    ∀ rem pos, findPosFrom keys key pos rem ≤ pos + rem := by
  intro rem
  induction rem with
  | zero => intro pos; rw [findPosFrom]; omega
  | succ m ih =>
    intro pos
    rw [findPosFrom]
    by_cases hc : bytesCompare key (keys.getD pos []) = .lt
    · rw [if_pos hc]; omega
    · rw [if_neg hc]
      calc findPosFrom keys key (pos + 1) m ≤ pos + 1 + m := ih (pos + 1)
        _ = pos + (m + 1) := by omega

/-- Every key stored in the leaf that `findLeafByKey`'s descent loop
reaches is a key of the subtree the descent started from. -/
theorem findLeafLoop_keys_sub (h : Heap) (k : Bytes) :
    ∀ fuel rid lid, findLeafLoop h k fuel rid = some lid →
      ∀ x, x ∈ activeKeys (hGet h lid) → x ∈ subtreeKeys h fuel rid := by
  intro fuel
  induction fuel with
  | zero => intro rid lid hfind; cases hfind
  | succ m ih =>
    intro rid lid hfind x hx
    rw [findLeafLoop] at hfind
    rw [subtreeKeys]
    by_cases hleaf : (hGet h rid).leaf
    · rw [if_pos hleaf] at hfind
      cases hfind
      rw [if_pos hleaf]
      exact hx
    · rw [if_neg hleaf] at hfind
      rw [if_neg hleaf]
      cases hslot :
        convertToNode ((hGet h rid).pointers.getD
          (findPosFrom (hGet h rid).keys k 0 (hGet h rid).keyNums) none) with
      | none => rw [hslot] at hfind; cases hfind
      | some cid =>
        rw [hslot] at hfind
        have hmem := ih cid lid hfind x hx
        have hposle : findPosFrom (hGet h rid).keys k 0 (hGet h rid).keyNums ≤
            (hGet h rid).keyNums := by
          have := findPosFrom_le (hGet h rid).keys k (hGet h rid).keyNums 0
          omega
        refine List.mem_flatten.mpr ⟨subtreeKeys h m cid, ?_, hmem⟩
        refine List.mem_map.mpr
          ⟨findPosFrom (hGet h rid).keys k 0 (hGet h rid).keyNums, ?_, ?_⟩
        · exact List.mem_range.mpr (by omega)
        · cases hp : (hGet h rid).pointers.getD
            (findPosFrom (hGet h rid).keys k 0 (hGet h rid).keyNums) none with
          | none => rw [hp] at hslot; cases hslot
          | some pd =>
            cases pd with
            | node id =>
              rw [hp] at hslot
              cases hslot
              rfl
            | val v => rw [hp] at hslot; cases hslot

/-- The scan of `keyPosition` finds nothing when none of the scanned
slots holds the key. -/
theorem keyPositionFrom_eq_none (keys : List Bytes) (k : Bytes) :
    ∀ rem i, (∀ j, j < rem → keys.getD (i + j) [] ≠ k) →
      keyPositionFrom keys k i rem = none := by
  intro rem
  induction rem with
  | zero => intro i _; rfl
  | succ m ih =>
    intro i hne
    rw [keyPositionFrom]
    have h0 : keys.getD i [] ≠ k := by
      have := hne 0 (Nat.succ_pos m)
      simpa using this
    have hc : ¬ bytesCompare k (keys.getD i []) = .eq := by
      intro hc
      exact h0 ((bytesCompare_eq_iff k (keys.getD i [])).mp hc).symm
    rw [if_neg hc]
    refine ih (i + 1) ?_
    intro j hj
    have := hne (j + 1) (by omega)
    simpa [Nat.add_assoc, Nat.add_comm 1 j] using this

/-- A leaf that does not store `k` reports `keyPosition = -1` for it. -/
theorem keyPosition_eq_none (n : GoNode) (k : Bytes)
    (hlen : n.keyNums ≤ n.keys.length) (habs : k ∉ activeKeys n) :
    keyPosition n k = none := by
  refine keyPositionFrom_eq_none n.keys k n.keyNums 0 ?_
  intro j hj hk
  refine habs ?_
  have hjlen : j < n.keys.length := lt_of_lt_of_le hj hlen
  have hget : n.keys.getD (0 + j) [] = n.keys.get ⟨j, hjlen⟩ := by
    simp [List.getD_eq_getElem, hjlen]
  rw [hget] at hk
  rw [← hk]
  unfold activeKeys
  have : n.keys.get ⟨j, hjlen⟩ = (n.keys.take n.keyNums).get
      ⟨j, by rw [List.length_take]; omega⟩ := by
    simp [List.getElem_take]
  rw [this]
  exact List.get_mem _ _ _

/-- C7: deleting a key the tree does not store returns `(absent, false)`
and leaves the whole tree state (size, root, every node) unchanged: the
descent reaches a leaf, `keyPosition` reports the key absent, and
`deleteAtLeafAndRebalance` returns before any mutation. -/
theorem c7_delete_absent_unchanged (fuel : Nat) (s : TreeState) (k : Bytes)
    (rid lid : Nat)
    (hroot : s.root = some rid)
    (hfind : findLeafLoop s.heap k fuel rid = some lid)
    (hlen : (hGet s.heap lid).keyNums ≤ (hGet s.heap lid).keys.length)
    (habsent : k ∉ subtreeKeys s.heap fuel rid) :
    deleteOp fuel s k = some ((none, false), s) := by
  have hnotin : k ∉ activeKeys (hGet s.heap lid) := fun hmem =>
    habsent (findLeafLoop_keys_sub s.heap k fuel rid lid hfind k hmem)
  have hkp : keyPosition (hGet s.heap lid) k = none :=
    keyPosition_eq_none _ k hlen hnotin
  have hd : deleteAtLeafAndRebalance fuel s lid k = some ((none, false), s) := by
    unfold deleteAtLeafAndRebalance
    rw [hkp]
  unfold deleteOp
  rw [hroot]
  simp [hfind, hd]

/-- Witness for C7: on the concrete two-key tree (storing the empty key
and `[97]`), deleting the absent key `[98]` hits every hypothesis of
`c7_delete_absent_unchanged` and leaves the state unchanged. -/
theorem c7_witness :
    (findLeafLoop (twoKeyTree.getD default).heap [98] 50 0 = some 0) ∧
    deleteOp 50 (twoKeyTree.getD default) [98] =
      some ((none, false), twoKeyTree.getD default) :=
  ⟨by decide,
   c7_delete_absent_unchanged 50 (twoKeyTree.getD default) [98] 0 0
     (by decide) (by decide) (by decide) (by decide)⟩

theorem hSet_length (h : Heap) (i : Nat) (n : GoNode) : (hSet h i n).length = h.length := by
  simp [hSet]

theorem hGet_hSet_self (h : Heap) (i : Nat) (n : GoNode) (hi : i < h.length) :
    hGet (hSet h i n) i = n := by
  simp [hGet, hSet, List.getD_eq_getElem?_getD, List.getElem?_set_self, hi]

theorem hGet_hSet_ne (h : Heap) (i j : Nat) (n : GoNode) (hij : i ≠ j) :
    hGet (hSet h i n) j = hGet h j := by
  simp [hGet, hSet, List.getD_eq_getElem?_getD, List.getElem?_set_ne hij]

theorem getD_set_self_lt (l : List α) (i : Nat) (a d : α) (h : i < l.length) :
    (l.set i a).getD i d = a := by
  simp [List.getD_eq_getElem?_getD, List.getElem?_set_self, h]

/-- The node `node.append(key, p)` leaves behind when the receiver is a
leaf. -/
def leafAppended (n : GoNode) (key : Bytes) (p : Slot) : GoNode :=
  { n with
      keys := n.keys.set n.keyNums key,
      pointers := n.pointers.set n.keyNums p,
      keyNums := n.keyNums + 1 }

/-- The node `node.deleteAt(0, 0)` leaves behind when the receiver is a
leaf. -/
def leafFirstDeleted (rs : GoNode) : GoNode :=
  { rs with
      keys := (shiftDown [] rs.keys 0 (rs.keyNums - 1)).set (rs.keyNums - 1) [],
      pointers := (shiftDown none rs.pointers 0 (rs.keyNums - 1)).set (rs.keyNums - 1) none,
      keyNums := rs.keyNums - 1 }

/-- The node `node.append(key, p)` leaves behind when the receiver is an
internal node whose slot at `keyNums` is occupied. -/
def internalAppended (n : GoNode) (key : Bytes) (p : Slot) : GoNode :=
  { n with
      keys := n.keys.set n.keyNums key,
      pointers := n.pointers.set (n.keyNums + 1) p,
      keyNums := n.keyNums + 1 }

/-- The node `node.deleteAt(0, 0)` leaves behind when the receiver is an
internal node (note: the pointer shift stops at `keyNums - 1`, exactly
like the source). -/
def internalFirstDeleted (rs : GoNode) : GoNode :=
  { rs with
      keys := (shiftDown [] rs.keys 0 (rs.keyNums - 1)).set (rs.keyNums - 1) [],
      pointers := (shiftDown none rs.pointers 0 (rs.keyNums - 1)).set rs.keyNums none,
      keyNums := rs.keyNums - 1 }

/-- A node with its parent back-reference retargeted. -/
def reparented (c : GoNode) (pid : Nat) : GoNode := { c with parent := some pid }

/-- A node with one separator key overwritten. -/
def sepUpdated (p : GoNode) (pos : Nat) (key : Bytes) : GoNode :=
  { p with keys := p.keys.set pos key }

/-- The borrow-from-right branch of `rebalancedFromLeafNode`,
characterized: when the leaf `n` cannot borrow from a left sibling
(either it has none, or that sibling is at `minKeyNum`) and the right
sibling `rs` has more than `minKeyNum` keys, the rebalance appends
`rs`'s first entry to `n`, removes `rs`'s first entry, and overwrites
the parent separator at the sibling's key position with `rs`'s new
first key. -/
theorem rebalancedFromLeafNode_borrowRight
    (fuel : Nat) (s : TreeState) (nid pid rsId pos : Nat) (n p rs : GoNode)
    (hn : hGet s.heap nid = n)
    (hleaf : n.leaf = true)
    (hpar : n.parent = some pid)
    (hp : hGet s.heap pid = p)
    (hposP : getPointerPositionOfNode p nid = some pos)
    (hleft : pos = 0 ∨ (1 ≤ pos ∧ ∃ lsId,
      convertToNode (p.pointers.getD (pos - 1) none) = some lsId ∧
      ¬ (hGet s.heap lsId).keyNums > s.minKeyNum))
    (hrsPos : pos + 1 < p.keyNums + 1)
    (hrsId : convertToNode (p.pointers.getD (pos + 1) none) = some rsId)
    (hrs : hGet s.heap rsId = rs)
    (hrsCnt : rs.keyNums > s.minKeyNum)
    (hrsLeaf : rs.leaf = true)
    (hne1 : nid ≠ pid) (hne2 : nid ≠ rsId) (hne3 : pid ≠ rsId)
    (hlrs : rsId < s.heap.length) :
    rebalancedFromLeafNode fuel s nid = some { s with
      heap := hSet (hSet (hSet s.heap nid (leafAppended n (rs.keys.getD 0 []) (rs.pointers.getD 0 none)))
        rsId (leafFirstDeleted rs)) pid (sepUpdated p pos ((leafFirstDeleted rs).keys.getD 0 [])) } := by
  have happ : nodeAppend s.heap nid (rs.keys.getD 0 []) (rs.pointers.getD 0 none) =
      some (hSet s.heap nid (leafAppended n (rs.keys.getD 0 []) (rs.pointers.getD 0 none))) := by
    unfold nodeAppend leafAppended
    rw [hn]
    simp [hleaf]
  have hgd : hGet (hSet s.heap nid (leafAppended n (rs.keys.getD 0 []) (rs.pointers.getD 0 none))) rsId = rs := by
    rw [hGet_hSet_ne _ _ _ _ hne2, hrs]
  have hdel : nodeDeleteAt (hSet s.heap nid (leafAppended n (rs.keys.getD 0 []) (rs.pointers.getD 0 none))) rsId 0 0 =
      hSet (hSet s.heap nid (leafAppended n (rs.keys.getD 0 []) (rs.pointers.getD 0 none)))
        rsId (leafFirstDeleted rs) := by
    unfold nodeDeleteAt leafFirstDeleted
    rw [hgd]
    simp [hrsLeaf]
  have hgp : hGet (hSet (hSet s.heap nid (leafAppended n (rs.keys.getD 0 []) (rs.pointers.getD 0 none)))
      rsId (leafFirstDeleted rs)) pid = p := by
    rw [hGet_hSet_ne _ _ _ _ (Ne.symm hne3), hGet_hSet_ne _ _ _ _ hne1, hp]
  have hgr : hGet (hSet (hSet s.heap nid (leafAppended n (rs.keys.getD 0 []) (rs.pointers.getD 0 none)))
      rsId (leafFirstDeleted rs)) rsId = leafFirstDeleted rs := by
    refine hGet_hSet_self _ _ _ ?_
    rw [hSet_length]
    exact hlrs
  rcases hleft with hpos0 | ⟨hpos1, lsId, hlsId, hlsCnt⟩
  · subst hpos0
    unfold rebalancedFromLeafNode
    simp only [hn, hpar, hp, hposP, Option.bind_eq_bind, Option.some_bind]
    simp only [show ¬ (1:Nat) ≤ 0 by omega, if_false, reduceIte]
    simp only [hrsPos, if_pos, hrsId, Option.some_bind, hrs, hrsCnt, if_true, happ, hdel]
    simp only [hgp, hgr, sepUpdated, Nat.add_sub_cancel, Nat.zero_add]
  · unfold rebalancedFromLeafNode
    simp only [hn, hpar, hp, hposP, Option.bind_eq_bind, Option.some_bind]
    simp only [if_pos hpos1, hlsId, Option.some_bind, if_neg hlsCnt]
    simp only [hrsPos, if_pos, hrsId, Option.some_bind, hrs, hrsCnt, if_true, happ, hdel]
    simp only [hgp, hgr, sepUpdated, Nat.add_sub_cancel]

/-- The borrow-from-right branch of `rebalanceParentNode`,
characterized: when the underflowed internal node `n` cannot borrow
from a left sibling and the right sibling `rs` has more than
`minKeyNum` keys, the rebalance appends the PARENT separator (not the
sibling's first key) to `n` along with `rs`'s first child pointer
(reparenting that child), overwrites the separator with `rs`'s removed
first key, and deletes `rs`'s first entry. -/
theorem rebalanceParentNode_borrowRight
    (fuel : Nat) (s : TreeState) (nid pid rsId cid pos : Nat) (n p rs : GoNode)
    (hn : hGet s.heap nid = n)
    (hleafF : n.leaf = false)
    (hpar : n.parent = some pid)
    (hunder : n.keyNums < s.minKeyNum)
    (hp : hGet s.heap pid = p)
    (hposP : getPointerPositionOfNode p nid = some pos)
    (hleft : pos = 0 ∨ (1 ≤ pos ∧ ∃ lsId,
      convertToNode (p.pointers.getD (pos - 1) none) = some lsId ∧
      ¬ (hGet s.heap lsId).keyNums > s.minKeyNum))
    (hrsPos : pos + 1 < p.keyNums + 1)
    (hrsId : convertToNode (p.pointers.getD (pos + 1) none) = some rsId)
    (hrs : hGet s.heap rsId = rs)
    (hrsCnt : rs.keyNums > s.minKeyNum)
    (hrsLeafF : rs.leaf = false)
    (hsslot : (n.pointers.getD n.keyNums none).isSome = true)
    (hchild : rs.pointers.getD 0 none = some (.node cid))
    (hne1 : nid ≠ pid) (hne2 : nid ≠ rsId) (hne3 : pid ≠ rsId)
    (hne4 : cid ≠ nid) (hne5 : cid ≠ pid) (hne6 : cid ≠ rsId) :
    rebalanceParentNode s (fuel + 1) nid = some { s with
      heap := hSet (hSet (hSet (hSet s.heap nid
          (internalAppended n (p.keys.getD pos []) (rs.pointers.getD 0 none)))
        cid (reparented (hGet s.heap cid) nid))
        pid (sepUpdated p pos (rs.keys.getD 0 [])))
        rsId (internalFirstDeleted rs) } := by
  have hnotge : ¬ n.keyNums ≥ s.minKeyNum := by omega
  have happ : nodeAppend s.heap nid (p.keys.getD pos []) (rs.pointers.getD 0 none) =
      some (hSet (hSet s.heap nid (internalAppended n (p.keys.getD pos []) (rs.pointers.getD 0 none)))
        cid (reparented (hGet s.heap cid) nid)) := by
    unfold nodeAppend internalAppended reparented
    rw [hn]
    simp only [hleafF, Bool.not_false, Bool.true_and, hsslot, if_true, if_false, Bool.false_eq_true, reduceIte]
    rw [hchild]
    simp only [convertToNode]
    rw [hGet_hSet_ne _ _ _ _ (Ne.symm hne4)]
  have hgp : hGet (hSet (hSet s.heap nid (internalAppended n (p.keys.getD pos []) (rs.pointers.getD 0 none)))
      cid (reparented (hGet s.heap cid) nid)) pid = p := by
    rw [hGet_hSet_ne _ _ _ _ hne5, hGet_hSet_ne _ _ _ _ hne1, hp]
  have hgr : hGet (hSet (hSet s.heap nid (internalAppended n (p.keys.getD pos []) (rs.pointers.getD 0 none)))
      cid (reparented (hGet s.heap cid) nid)) rsId = rs := by
    rw [hGet_hSet_ne _ _ _ _ hne6, hGet_hSet_ne _ _ _ _ hne2, hrs]
  have hgr2 : hGet (hSet (hSet (hSet s.heap nid (internalAppended n (p.keys.getD pos []) (rs.pointers.getD 0 none)))
      cid (reparented (hGet s.heap cid) nid)) pid (sepUpdated p pos (rs.keys.getD 0 []))) rsId = rs := by
    rw [hGet_hSet_ne _ _ _ _ hne3, hgr]
  have hdel : nodeDeleteAt (hSet (hSet (hSet s.heap nid
        (internalAppended n (p.keys.getD pos []) (rs.pointers.getD 0 none)))
      cid (reparented (hGet s.heap cid) nid)) pid (sepUpdated p pos (rs.keys.getD 0 []))) rsId 0 0 =
      hSet (hSet (hSet (hSet s.heap nid
          (internalAppended n (p.keys.getD pos []) (rs.pointers.getD 0 none)))
        cid (reparented (hGet s.heap cid) nid))
        pid (sepUpdated p pos (rs.keys.getD 0 [])))
        rsId (internalFirstDeleted rs) := by
    unfold nodeDeleteAt internalFirstDeleted
    rw [hgr2]
    simp [hrsLeafF]
  rcases hleft with hpos0 | ⟨hpos1, lsId, hlsId, hlsCnt⟩
  · subst hpos0
    unfold rebalanceParentNode
    simp only [hn, hpar, hnotge, if_false, reduceIte, hp, hposP, Option.bind_eq_bind, Option.some_bind]
    simp only [show ¬ (1:Nat) ≤ 0 by omega, if_false, reduceIte]
    simp only [hrsPos, if_pos, hrsId, Option.some_bind, hrs, hrsCnt, if_true, happ, hgp, hgr]
    simp only [sepUpdated] at hdel
    simp only [sepUpdated, Nat.add_sub_cancel, Nat.zero_add, Nat.sub_self, hdel]
  · unfold rebalanceParentNode
    simp only [hn, hpar, hnotge, if_false, reduceIte, hp, hposP, Option.bind_eq_bind, Option.some_bind]
    simp only [if_pos hpos1, hlsId, Option.some_bind, if_neg hlsCnt]
    simp only [Nat.add_sub_cancel, hrsPos, if_pos, hrsId, Option.some_bind, hrs, hrsCnt, if_true,
      happ, hgp, hgr]
    simp only [sepUpdated] at hdel
    simp only [sepUpdated, Nat.add_sub_cancel, Nat.sub_self, hdel]

/-- A concrete order-4 tree for the C8 analysis: node 1 is an
underflowed internal node (no keys, no left sibling) whose right sibling
node 5 is internal with two keys (more than `minKeyNum = 1`). -/
def c8Heap : Heap :=
  [ { leaf := true, parent := some 1, keys := [[1], [], []], keyNums := 1,
      pointers := [some (.val [1]), none, none, none] },
    { leaf := false, parent := some 6, keys := [[], [], []], keyNums := 0,
      pointers := [some (.node 0), none, none, none] },
    { leaf := true, parent := some 5, keys := [[5], [], []], keyNums := 1,
      pointers := [some (.val [5]), none, none, none] },
    { leaf := true, parent := some 5, keys := [[7], [], []], keyNums := 1,
      pointers := [some (.val [7]), none, none, none] },
    { leaf := true, parent := some 5, keys := [[9], [], []], keyNums := 1,
      pointers := [some (.val [9]), none, none, none] },
    { leaf := false, parent := some 6, keys := [[7], [9], []], keyNums := 2,
      pointers := [some (.node 2), some (.node 3), some (.node 4), none] },
    { leaf := false, parent := none, keys := [[5], [], []], keyNums := 1,
      pointers := [some (.node 1), some (.node 5), none, none] } ]

/-- The tree state around `c8Heap`. -/
def c8State : TreeState :=
  { heap := c8Heap, root := some 6, mostLeftNode := some 0, order := 4,
    size := 4, minKeyNum := 1 }

/-- The state after rebalancing the underflowed internal node 1. -/
def c8After : Option TreeState := rebalanceParentNode c8State 10 1

/-- C8 counterexample: on `c8State`, the underflowed internal node 1
cannot borrow from a left sibling (it has none) and its right sibling
(node 5) has 2 > `minKeyNum` keys, so the claim applies; but the key
moved to the end of node 1 is `[5]` — the parent separator — while the
right sibling's first key was `[7]`; and the parent separator becomes
`[7]` — the sibling's removed first key — while the sibling's new first
key is `[9]`.  Both of the claim's predictions fail. -/
theorem c8_internal_borrow_counterexample :
    (c8After.map fun s2 => (hGet s2.heap 1).keys.getD 0 []) = some [5] ∧
    (hGet c8State.heap 5).keys.getD 0 [] = [7] ∧
    (c8After.map fun s2 => (hGet s2.heap 6).keys.getD 0 []) = some [7] ∧
    (c8After.map fun s2 => (hGet s2.heap 5).keys.getD 0 []) = some [9] ∧
    ¬ ((c8After.map fun s2 => (hGet s2.heap 1).keys.getD 0 []) = some [7] ∧
       (c8After.map fun s2 => (hGet s2.heap 6).keys.getD 0 []) = some [9]) := by
  decide

/-- C8 (amended): when an underflowed node `n` cannot borrow from a
left sibling and has a right sibling with more than `minKeyNum` keys:
for a LEAF, the rebalance moves the sibling's first key and first
pointer to the end of `n` and updates the governing separator to the
sibling's new first key (the claim as stated); for an INTERNAL node,
the rebalance instead moves the parent's separator to the end of `n`
together with the sibling's first child pointer (reparenting that
child to `n`), and updates the separator to the sibling's removed
first key. -/
theorem c8_borrow_right_amended :
    (∀ (fuel : Nat) (s : TreeState) (nid pid rsId pos : Nat) (n p rs : GoNode),
      hGet s.heap nid = n → n.leaf = true → n.parent = some pid →
      hGet s.heap pid = p → getPointerPositionOfNode p nid = some pos →
      (pos = 0 ∨ (1 ≤ pos ∧ ∃ lsId,
        convertToNode (p.pointers.getD (pos - 1) none) = some lsId ∧
        ¬ (hGet s.heap lsId).keyNums > s.minKeyNum)) →
      pos + 1 < p.keyNums + 1 →
      convertToNode (p.pointers.getD (pos + 1) none) = some rsId →
      hGet s.heap rsId = rs → rs.keyNums > s.minKeyNum → rs.leaf = true →
      nid ≠ pid → nid ≠ rsId → pid ≠ rsId →
      nid < s.heap.length → rsId < s.heap.length → pid < s.heap.length →
      n.keyNums < n.keys.length → n.keyNums < n.pointers.length →
      pos < p.keys.length →
      ∃ s2, rebalancedFromLeafNode fuel s nid = some s2 ∧
        (hGet s2.heap nid).keyNums = n.keyNums + 1 ∧
        (hGet s2.heap nid).keys.getD n.keyNums [] = rs.keys.getD 0 [] ∧
        (hGet s2.heap nid).pointers.getD n.keyNums none = rs.pointers.getD 0 none ∧
        (hGet s2.heap rsId).keyNums = rs.keyNums - 1 ∧
        (hGet s2.heap pid).keys.getD pos [] = (hGet s2.heap rsId).keys.getD 0 []) ∧
    (∀ (fuel : Nat) (s : TreeState) (nid pid rsId cid pos : Nat) (n p rs : GoNode),
      hGet s.heap nid = n → n.leaf = false → n.parent = some pid →
      n.keyNums < s.minKeyNum →
      hGet s.heap pid = p → getPointerPositionOfNode p nid = some pos →
      (pos = 0 ∨ (1 ≤ pos ∧ ∃ lsId,
        convertToNode (p.pointers.getD (pos - 1) none) = some lsId ∧
        ¬ (hGet s.heap lsId).keyNums > s.minKeyNum)) →
      pos + 1 < p.keyNums + 1 →
      convertToNode (p.pointers.getD (pos + 1) none) = some rsId →
      hGet s.heap rsId = rs → rs.keyNums > s.minKeyNum → rs.leaf = false →
      (n.pointers.getD n.keyNums none).isSome = true →
      rs.pointers.getD 0 none = some (.node cid) →
      nid ≠ pid → nid ≠ rsId → pid ≠ rsId →
      cid ≠ nid → cid ≠ pid → cid ≠ rsId →
      nid < s.heap.length → pid < s.heap.length → rsId < s.heap.length →
      cid < s.heap.length →
      n.keyNums < n.keys.length → n.keyNums + 1 < n.pointers.length →
      pos < p.keys.length →
      ∃ s2, rebalanceParentNode s (fuel + 1) nid = some s2 ∧
        (hGet s2.heap nid).keyNums = n.keyNums + 1 ∧
        (hGet s2.heap nid).keys.getD n.keyNums [] = p.keys.getD pos [] ∧
        (hGet s2.heap nid).pointers.getD (n.keyNums + 1) none = rs.pointers.getD 0 none ∧
        (hGet s2.heap cid).parent = some nid ∧
        (hGet s2.heap pid).keys.getD pos [] = rs.keys.getD 0 [] ∧
        (hGet s2.heap rsId).keyNums = rs.keyNums - 1) := by
  constructor
  · intro fuel s nid pid rsId pos n p rs hn hleaf hpar hp hposP hleft hrsPos hrsId hrs
      hrsCnt hrsLeaf hne1 hne2 hne3 hlnid hlrs hlpid hkk hkp hpk
    have hrun := rebalancedFromLeafNode_borrowRight fuel s nid pid rsId pos n p rs
      hn hleaf hpar hp hposP hleft hrsPos hrsId hrs hrsCnt hrsLeaf hne1 hne2 hne3 hlrs
    refine ⟨_, hrun, ?_, ?_, ?_, ?_, ?_⟩
    · rw [hGet_hSet_ne _ _ _ _ (Ne.symm hne1), hGet_hSet_ne _ _ _ _ (Ne.symm hne2)]
      rw [hGet_hSet_self _ _ _ hlnid]
      rfl
    · rw [hGet_hSet_ne _ _ _ _ (Ne.symm hne1), hGet_hSet_ne _ _ _ _ (Ne.symm hne2)]
      rw [hGet_hSet_self _ _ _ hlnid]
      simp only [leafAppended]
      exact getD_set_self_lt _ _ _ _ hkk
    · rw [hGet_hSet_ne _ _ _ _ (Ne.symm hne1), hGet_hSet_ne _ _ _ _ (Ne.symm hne2)]
      rw [hGet_hSet_self _ _ _ hlnid]
      simp only [leafAppended]
      exact getD_set_self_lt _ _ _ _ hkp
    · rw [hGet_hSet_ne _ _ _ _ hne3]
      rw [hGet_hSet_self _ _ _ (by rw [hSet_length]; exact hlrs)]
      rfl
    · rw [hGet_hSet_self _ _ _ (by rw [hSet_length, hSet_length]; exact hlpid)]
      rw [hGet_hSet_ne _ _ _ _ hne3]
      rw [hGet_hSet_self _ _ _ (by rw [hSet_length]; exact hlrs)]
      simp only [sepUpdated]
      exact getD_set_self_lt _ _ _ _ hpk
  · intro fuel s nid pid rsId cid pos n p rs hn hleafF hpar hunder hp hposP hleft hrsPos
      hrsId hrs hrsCnt hrsLeafF hsslot hchild hne1 hne2 hne3 hne4 hne5 hne6 hlnid hlpid
      hlrs hlcid hkk hkp hpk
    have hrun := rebalanceParentNode_borrowRight fuel s nid pid rsId cid pos n p rs
      hn hleafF hpar hunder hp hposP hleft hrsPos hrsId hrs hrsCnt hrsLeafF hsslot hchild
      hne1 hne2 hne3 hne4 hne5 hne6
    refine ⟨_, hrun, ?_, ?_, ?_, ?_, ?_, ?_⟩
    · rw [hGet_hSet_ne _ _ _ _ hne2.symm, hGet_hSet_ne _ _ _ _ hne1.symm]
      rw [hGet_hSet_ne _ _ _ _ hne4, hGet_hSet_self _ _ _ hlnid]
      rfl
    · rw [hGet_hSet_ne _ _ _ _ hne2.symm, hGet_hSet_ne _ _ _ _ hne1.symm]
      rw [hGet_hSet_ne _ _ _ _ hne4, hGet_hSet_self _ _ _ hlnid]
      simp only [internalAppended]
      exact getD_set_self_lt _ _ _ _ hkk
    · rw [hGet_hSet_ne _ _ _ _ hne2.symm, hGet_hSet_ne _ _ _ _ hne1.symm]
      rw [hGet_hSet_ne _ _ _ _ hne4, hGet_hSet_self _ _ _ hlnid]
      simp only [internalAppended]
      exact getD_set_self_lt _ _ _ _ hkp
    · rw [hGet_hSet_ne _ _ _ _ hne6.symm, hGet_hSet_ne _ _ _ _ hne5.symm]
      rw [hGet_hSet_self _ _ _ (by rw [hSet_length]; exact hlcid)]
      rfl
    · rw [hGet_hSet_ne _ _ _ _ hne3.symm]
      rw [hGet_hSet_self _ _ _ (by rw [hSet_length, hSet_length]; exact hlpid)]
      simp only [sepUpdated]
      exact getD_set_self_lt _ _ _ _ hpk
    · rw [hGet_hSet_self _ _ _ (by rw [hSet_length, hSet_length, hSet_length]; exact hlrs)]
      rfl

/-- A concrete order-4 tree for the C8 leaf scenario: leaf node 0 is
empty (no left sibling) and its right sibling leaf node 1 holds two
keys (more than `minKeyNum = 1`). -/
def c8LeafState : TreeState :=
  { heap :=
      [ { leaf := true, parent := some 2, keys := [[], [], []], keyNums := 0,
          pointers := [none, none, none, some (.node 1)] },
        { leaf := true, parent := some 2, keys := [[5], [7], []], keyNums := 2,
          pointers := [some (.val [5]), some (.val [7]), none, none] },
        { leaf := false, parent := none, keys := [[5], [], []], keyNums := 1,
          pointers := [some (.node 0), some (.node 1), none, none] } ],
    root := some 2, mostLeftNode := some 0, order := 4, size := 2, minKeyNum := 1 }

/-- Witness for C8: `c8_borrow_right_amended` applied to the concrete
leaf scenario `c8LeafState` (leaf node 0 borrows from leaf node 1 under
parent node 2) and to the concrete internal scenario `c8State` (internal
node 1 borrows from internal node 5 under the root node 6). -/
theorem c8_witness :
    (∃ s2, rebalancedFromLeafNode 5 c8LeafState 0 = some s2 ∧
      (hGet s2.heap 0).keyNums = (hGet c8LeafState.heap 0).keyNums + 1 ∧
      (hGet s2.heap 0).keys.getD (hGet c8LeafState.heap 0).keyNums [] =
        (hGet c8LeafState.heap 1).keys.getD 0 [] ∧
      (hGet s2.heap 0).pointers.getD (hGet c8LeafState.heap 0).keyNums none =
        (hGet c8LeafState.heap 1).pointers.getD 0 none ∧
      (hGet s2.heap 1).keyNums = (hGet c8LeafState.heap 1).keyNums - 1 ∧
      (hGet s2.heap 2).keys.getD 0 [] = (hGet s2.heap 1).keys.getD 0 []) ∧
    (∃ s2, rebalanceParentNode c8State (9 + 1) 1 = some s2 ∧
      (hGet s2.heap 1).keyNums = (hGet c8State.heap 1).keyNums + 1 ∧
      (hGet s2.heap 1).keys.getD (hGet c8State.heap 1).keyNums [] =
        (hGet c8State.heap 6).keys.getD 0 [] ∧
      (hGet s2.heap 1).pointers.getD ((hGet c8State.heap 1).keyNums + 1) none =
        (hGet c8State.heap 5).pointers.getD 0 none ∧
      (hGet s2.heap 2).parent = some 1 ∧
      (hGet s2.heap 6).keys.getD 0 [] = (hGet c8State.heap 5).keys.getD 0 [] ∧
      (hGet s2.heap 5).keyNums = (hGet c8State.heap 5).keyNums - 1) := by
  constructor
  · exact c8_borrow_right_amended.1 5 c8LeafState 0 2 1 0 _ _ _ rfl (by decide) (by decide)
      rfl (by decide) (Or.inl rfl) (by decide) (by decide) rfl (by decide) (by decide)
      (by decide) (by decide) (by decide) (by decide) (by decide) (by decide) (by decide)
      (by decide) (by decide)
  · exact c8_borrow_right_amended.2 9 c8State 1 6 5 2 0 _ _ _ rfl (by decide) (by decide)
      (by decide) rfl (by decide) (Or.inl rfl) (by decide) (by decide) rfl (by decide)
      (by decide) (by decide) (by decide) (by decide) (by decide) (by decide) (by decide)
      (by decide) (by decide) (by decide) (by decide) (by decide) (by decide) (by decide)
      (by decide) (by decide)

end BPTree
